import Mathlib

/-
Verification of the Real-Time Interview Response Pipeline
(backend of the interview_mate repository) against its
natural-language specification.

The Python sources are shallowly embedded: pure helper functions become
Lean functions over String / List Char / Rat (Python floats are modelled
as exact rationals: every constant involved is a small decimal literal and
every comparison in the claims is far from any rounding boundary), dict
state becomes insertion-ordered association lists with Python-dict update
semantics, and calls to external backends (OpenAI, Qdrant, Deepgram,
Anthropic/GLM) become explicit outcome parameters.  Character classes of
the regexes involved (\w, \s, [A-Z], [A-Za-z0-9]) are read as their ASCII
meaning, which is the alphabet every string in the claims lives in.
All string manipulation is defined structurally on List Char (with String
wrappers at the boundaries) so that every definition evaluates by kernel
reduction.
-/

namespace InterviewMate

/-! ## Python string primitives -/

/-- Python `str.split()` helper on character lists: split on whitespace
runs, dropping empty pieces.  The accumulator holds the current word,
reversed. -/
def wordsAux : List Char → List Char → List (List Char)
  | acc, [] => if acc = [] then [] else [acc.reverse]
  | acc, c :: rest =>
    if c.isWhitespace then
      (if acc = [] then wordsAux [] rest else acc.reverse :: wordsAux [] rest)
    else wordsAux (c :: acc) rest

/-- Python `str.split()` with no argument. -/
def pySplit (s : String) : List String :=
  (wordsAux [] s.data).map String.mk

/-- Python `str.strip()` with no argument: drop leading and trailing
whitespace. -/
def pyStrip (s : String) : String :=
  String.mk (((s.data.dropWhile Char.isWhitespace).reverse.dropWhile
    Char.isWhitespace).reverse)

/-- Python `str.lower()`, ASCII reading. -/
def pyLower (s : String) : String :=
  String.mk (s.data.map Char.toLower)

/-- Python `str.endswith(c)` for a single character `c`. -/
def endsWithChar (s : String) (c : Char) : Bool :=
  s.data.getLast? = some c

/-- Python `str.startswith(p)`. -/
def startsWithStr (s p : String) : Bool :=
  p.data.isPrefixOf s.data

/-- Python substring test `needle in haystack` on character lists. -/
def charsContain (haystack needle : List Char) : Bool :=
  (List.range (haystack.length + 1)).any
    (fun i => needle.isPrefixOf (haystack.drop i))

/-- Python substring test `needle in haystack` on strings. -/
def strContains (haystack needle : String) : Bool :=
  charsContain haystack.data needle.data

/-- Python `' '.join(parts)`. -/
def joinSpace : List String → String
  | [] => ""
  | [p] => p
  | p :: rest => p ++ " " ++ joinSpace rest

/-- Python `\w` (word character), ASCII reading: letters, digits, underscore. -/
def pyIsWordChar (c : Char) : Bool :=
  c.isAlphanum || c = '_'

/-! ## claude.py: normalize_question -/

/-- Embeds `normalize_question` (claude.py): lower-case, drop every
character that is neither a word character nor whitespace
(`re.sub(r'[^\w\s]', '', ...)`), and collapse whitespace runs to single
spaces (`' '.join(normalized.split())`). -/
def normalize_question (question : String) : String :=
  let lowered := pyLower question
  let kept := String.mk (lowered.data.filter (fun c => pyIsWordChar c || c.isWhitespace))
  joinSpace (pySplit kept)

/-! ## websocket.py: is_question_likely_complete (completeness gate) -/

/-- Embeds `is_question_likely_complete` (websocket.py).  Mirrors the
control flow of the source: the empty-text guard, the reassignment
`text = text.strip()`, the `< 5` word-count early return, then the
question-mark / eight-word / terminal-punctuation checks. -/
def is_question_likely_complete (text : String) : Bool :=
  if text = "" then false
  else
    let t := pyStrip text
    let word_count := (pySplit t).length
    if word_count < 5 then false
    else
      let has_terminal_punctuation :=
        endsWithChar t '?' || endsWithChar t '.' || endsWithChar t '!'
      if endsWithChar t '?' then true
      else if word_count ≥ 8 then true
      else has_terminal_punctuation

example : is_question_likely_complete "ok" = false := by decide
example : is_question_likely_complete "What would you do if this happened to you" = true := by
  decide
example : is_question_likely_complete "So how did you get here today." = true := by decide

/-- C2 (counterexample): the claimed characterization fails at "Yes?".
"Yes?" ends in a question mark, so the claim classifies it complete, but
the code returns `false`: the `< 5` word-count early return fires before
the question-mark check is ever reached. -/
theorem c2_counterexample :
    endsWithChar (pyStrip "Yes?") '?' = true ∧
      is_question_likely_complete "Yes?" = false := by
  decide

/-- C2 (amended): the completeness gate classifies text as complete iff
its stripped form has at least 5 words AND (it ends in a question mark,
or has at least 8 words, or ends in '.' or '!').  In particular "ok" is
incomplete, and — contrary to the claim — so is "Yes?", because a
question mark does not override the 5-word minimum. -/
theorem c2_completeness_gate_characterization (text : String) :
    is_question_likely_complete text = true ↔
      (5 ≤ (pySplit (pyStrip text)).length ∧
        (endsWithChar (pyStrip text) '?' = true ∨
         8 ≤ (pySplit (pyStrip text)).length ∨
         endsWithChar (pyStrip text) '.' = true ∨
         endsWithChar (pyStrip text) '!' = true)) := by
  by_cases h0 : text = ""
  · subst h0; decide
  · unfold is_question_likely_complete
    rw [if_neg h0]
    by_cases h5 : (pySplit (pyStrip text)).length < 5
    · rw [if_pos h5]
      simp only [Bool.false_eq_true, false_iff, not_and]
      intro hle
      omega
    · rw [if_neg h5]
      by_cases hq : endsWithChar (pyStrip text) '?' = true
      · rw [if_pos hq]
        exact ⟨fun _ => ⟨by omega, Or.inl hq⟩, fun _ => rfl⟩
      · rw [if_neg hq]
        by_cases h8 : (pySplit (pyStrip text)).length ≥ 8
        · rw [if_pos h8]
          exact ⟨fun _ => ⟨by omega, Or.inr (Or.inl h8)⟩, fun _ => rfl⟩
        · rw [if_neg h8]
          simp only [Bool.or_eq_true]
          constructor
          · intro h
            exact ⟨by omega, by tauto⟩
          · rintro ⟨-, hc⟩
            tauto

/-! ## Exact fractions

Python float similarity scores are modelled as exact non-negative
rationals in canonical (fully reduced) form.  A dedicated structure with
a fuel-driven Euclidean gcd is used instead of Mathlib's `Rat` so that
every score evaluates by kernel reduction. -/

/-- Euclid's algorithm with explicit fuel; `fuel = m + 1` always
suffices since the first argument strictly decreases. -/
def gcdFuel : Nat → Nat → Nat → Nat
  | 0, _, n => n
  | _ + 1, 0, n => n
  | fuel + 1, m, n => gcdFuel fuel (n % m) m

/-- Canonical non-negative fraction. -/
structure Q where
  num : Nat
  den : Nat
deriving DecidableEq, Repr

/-- Builds the canonical fraction n/d (and maps the never-occurring d = 0
to 0). -/
def qMk (n d : Nat) : Q :=
  if d = 0 then ⟨0, 1⟩
  else
    let g := gcdFuel (n + 1) n d
    ⟨n / g, d / g⟩

/-- Value comparison x ≤ y by cross multiplication. -/
def qLe (x y : Q) : Bool := x.num * y.den ≤ y.num * x.den

/-- Value comparison x < y by cross multiplication. -/
def qLt (x y : Q) : Bool := x.num * y.den < y.num * x.den

/-- Python `max(x, y)`: x when x ≥ y, else y. -/
def qMax (x y : Q) : Q := if qLe y x then x else y

/-! ## claude.py: calculate_similarity (hybrid fuzzy metric)

Strategy 3 of the metric is `difflib.SequenceMatcher(None, a, b).ratio()`.
The matcher is embedded in full: the b-index table, the dynamic-programming
longest-block search with its first-occurrence tie-breaking, the
non-junk extension phases, and the recursive matching-block accumulation.
The junk machinery of difflib is vacuous here: no junk predicate is
passed, and the autojunk heuristic only activates on sequences of length
≥ 200, while every similarity comparison in this pipeline happens on
short question strings (the two final junk-extension loops of
`find_longest_match`, which move only junk elements, therefore never
fire and are omitted). -/

/-- The `b2j` table of `SequenceMatcher`: indices of character c in b,
ascending. -/
def b2j (b : List Char) (c : Char) : List Nat :=
  (b.enum.filter (fun p => p.2 == c)).map (fun p => p.1)

/-- Best block candidate of `find_longest_match`. -/
structure SMBest where
  besti : Nat
  bestj : Nat
  bestsize : Nat
deriving Repr, DecidableEq

/-- Lookup in the j2len row table (Python `j2len.get(j-1, 0)`). -/
def j2lenGet (m : List (Nat × Nat)) (j : Nat) : Nat :=
  match m.find? (fun p => p.1 == j) with
  | some p => p.2
  | none => 0

/-- One row of the `find_longest_match` dynamic program: for a fixed i,
walk the (ascending, range-filtered) b-indices of a[i], building the new
run-length table and improving the best block exactly when the new run is
strictly longer — the strict comparison is what keeps the earliest
(i, then j) block on ties, as in difflib. -/
def flmRowStep (j2len : List (Nat × Nat)) (i : Nat) :
    List Nat → List (Nat × Nat) → SMBest → (List (Nat × Nat) × SMBest)
  | [], newj2len, best => (newj2len, best)
  | j :: js, newj2len, best =>
    let k := (if j = 0 then 0 else j2lenGet j2len (j - 1)) + 1
    let best' :=
      if k > best.bestsize then SMBest.mk (i + 1 - k) (j + 1 - k) k else best
    flmRowStep j2len i js ((j, k) :: newj2len) best'

/-- The outer loop of `find_longest_match` over i = alo..ahi-1. -/
def flmRows (a b : List Char) (blo bhi : Nat) :
    List Nat → List (Nat × Nat) → SMBest → SMBest
  | [], _, best => best
  | i :: rest, j2len, best =>
    let c := a.getD i ' '
    let js := (b2j b c).filter (fun j => decide (blo ≤ j) && decide (j < bhi))
    let p := flmRowStep j2len i js [] best
    flmRows a b blo bhi rest p.1 p.2

/-- The left extension phase of `find_longest_match`: extend the block
over equal characters before it.  Fuel: besti itself. -/
def extendLeftAux (a b : List Char) (alo blo : Nat) :
    Nat → Nat → Nat → Nat → SMBest
  | 0, i, j, k => SMBest.mk i j k
  | fuel + 1, i, j, k =>
    if alo < i ∧ blo < j ∧ a.getD (i - 1) ' ' = b.getD (j - 1) ' ' then
      extendLeftAux a b alo blo fuel (i - 1) (j - 1) (k + 1)
    else SMBest.mk i j k

/-- The right extension phase of `find_longest_match`. -/
def extendRightSize (a b : List Char) (ahi bhi : Nat) :
    Nat → Nat → Nat → Nat → Nat
  | 0, _, _, k => k
  | fuel + 1, i, j, k =>
    if i + k < ahi ∧ j + k < bhi ∧ a.getD (i + k) ' ' = b.getD (j + k) ' ' then
      extendRightSize a b ahi bhi fuel i j (k + 1)
    else k

/-- `SequenceMatcher.find_longest_match` on a[alo:ahi] vs b[blo:bhi],
junk-free. -/
def findLongestMatch (a b : List Char) (alo ahi blo bhi : Nat) : SMBest :=
  let idxList := (List.range ahi).filter (fun i => decide (alo ≤ i))
  let raw := flmRows a b blo bhi idxList [] (SMBest.mk alo blo 0)
  let ext := extendLeftAux a b alo blo raw.besti raw.besti raw.bestj raw.bestsize
  let size := extendRightSize a b ahi bhi (ahi + 1) ext.besti ext.bestj ext.bestsize
  SMBest.mk ext.besti ext.bestj size

/-- Total size of all matching blocks (`get_matching_blocks`): recurse
left and right of each longest block.  Fuel: the a-interval strictly
shrinks, so `a.length + 1` suffices. -/
def matchTotalAux (a b : List Char) : Nat → Nat → Nat → Nat → Nat → Nat
  | 0, _, _, _, _ => 0
  | fuel + 1, alo, ahi, blo, bhi =>
    let m := findLongestMatch a b alo ahi blo bhi
    if m.bestsize = 0 then 0
    else
      matchTotalAux a b fuel alo m.besti blo m.bestj + m.bestsize +
        matchTotalAux a b fuel (m.besti + m.bestsize) ahi (m.bestj + m.bestsize) bhi

/-- Sum of matching-block sizes over the whole strings. -/
def matchTotal (a b : List Char) : Nat :=
  matchTotalAux a b (a.length + 1) 0 a.length 0 b.length

/-- `SequenceMatcher.ratio()`: 2M / (len(a)+len(b)), and 1 for two empty
sequences (difflib's `_calculate_ratio`). -/
def sequence_similarity (s1 s2 : String) : Q :=
  if s1.data.length + s2.data.length = 0 then qMk 1 1
  else qMk (2 * matchTotal s1.data s2.data) (s1.data.length + s2.data.length)

/-- The containment part of strategy 2 of `calculate_similarity`,
including Python's tie behavior: `min(tokens1, tokens2, key=len)` and
`max(tokens1, tokens2, key=len)` both return their FIRST argument when
the sets have equal size, so two equally-sized token sets give
containment |t1 ∩ t1| / |t1| = 1 regardless of their contents. -/
def tokenContainment (t1 t2 : Finset String) : Q :=
  let smaller := if t1.card ≤ t2.card then t1 else t2
  let larger := if t1.card ≥ t2.card then t1 else t2
  if smaller ≠ ∅ then qMk (smaller ∩ larger).card smaller.card else qMk 0 1

/-- Strategy 2 of `calculate_similarity`: max of Jaccard overlap and
containment over the word sets (Python `set(str.split())`). -/
def token_similarity (str1 str2 : String) : Q :=
  if (pySplit str1).toFinset ≠ ∅ ∧ (pySplit str2).toFinset ≠ ∅ then
    qMax
      (qMk ((pySplit str1).toFinset ∩ (pySplit str2).toFinset).card
        ((pySplit str1).toFinset ∪ (pySplit str2).toFinset).card)
      (tokenContainment (pySplit str1).toFinset (pySplit str2).toFinset)
  else qMk 0 1

/-- Embeds `calculate_similarity` (claude.py): 0.95 when either string
contains the other, else the max of the token strategy and the
SequenceMatcher ratio. -/
def calculate_similarity (str1 str2 : String) : Q :=
  if strContains str2 str1 || strContains str1 str2 then qMk 95 100
  else qMax (token_similarity str1 str2) (sequence_similarity str1 str2)

/-- The containment strategy is symmetric, by case analysis on the
set-size comparison (the equal-size tie resolves to the first set on both
sides, and degenerates to card/card either way). -/
theorem tokenContainment_comm (t1 t2 : Finset String) :
    tokenContainment t1 t2 = tokenContainment t2 t1 := by
  unfold tokenContainment
  rcases lt_trichotomy t1.card t2.card with hlt | heq | hgt
  · rw [if_pos (le_of_lt hlt), if_neg (by omega : ¬ t1.card ≥ t2.card),
      if_neg (by omega : ¬ t2.card ≤ t1.card), if_pos (by omega : t2.card ≥ t1.card)]
  · rw [if_pos (le_of_eq heq), if_pos (ge_of_eq heq),
      if_pos (le_of_eq heq.symm), if_pos (ge_of_eq heq.symm)]
    simp only [Finset.inter_self]
    by_cases h1 : t1 = ∅
    · have h2 : t2 = ∅ := Finset.card_eq_zero.mp (by rw [← heq, h1, Finset.card_empty])
      rw [h1, h2]
    · have h2 : t2 ≠ ∅ := by
        intro hc
        exact h1 (Finset.card_eq_zero.mp (by rw [heq, hc, Finset.card_empty]))
      rw [if_pos h1, if_pos h2, heq]
  · rw [if_neg (by omega : ¬ t1.card ≤ t2.card), if_pos (by omega : t1.card ≥ t2.card),
      if_pos (le_of_lt hgt), if_neg (by omega : ¬ t2.card ≥ t1.card)]

/-- The token strategy is symmetric. -/
theorem token_similarity_comm (a b : String) :
    token_similarity a b = token_similarity b a := by
  unfold token_similarity
  by_cases h : (pySplit a).toFinset ≠ ∅ ∧ (pySplit b).toFinset ≠ ∅
  · rw [if_pos h, if_pos ⟨h.2, h.1⟩, Finset.inter_comm, Finset.union_comm,
      tokenContainment_comm]
  · rw [if_neg h, if_neg (fun hc => h ⟨hc.2, hc.1⟩)]

/-- C7 (counterexample): the hybrid metric is not symmetric.  On the pair
("PQRSzm w", "xRSymPQ") neither string contains the other and the word
sets are disjoint with different sizes, so the result is exactly the
SequenceMatcher ratio — and difflib's first-occurrence tie-breaking picks
the block "PQ" in one direction (total match 2, ratio 4/15) but the block
"RS" in the other (total match 3 with the later "m", ratio 6/15). -/
theorem c7_counterexample :
    calculate_similarity "PQRSzm w" "xRSymPQ" ≠
      calculate_similarity "xRSymPQ" "PQRSzm w" := by
  decide

/-- C7 (amended): the substring strategy and the token strategy of
`calculate_similarity` are symmetric, so the metric is symmetric whenever
the SequenceMatcher ratio agrees across the two argument orders; full
symmetry fails in general because that ratio is order-sensitive. -/
theorem c7_calculate_similarity_symm (a b : String)
    (h : sequence_similarity a b = sequence_similarity b a) :
    calculate_similarity a b = calculate_similarity b a := by
  unfold calculate_similarity
  by_cases hs : (strContains b a || strContains a b) = true
  · rw [if_pos hs, if_pos (by rw [Bool.or_comm] at hs; exact hs)]
  · rw [if_neg hs, if_neg (fun hc => hs (by rw [Bool.or_comm] at hc; exact hc)),
      token_similarity_comm, h]

/-- C7 (witness): the symmetry theorem applied at a concrete pair whose
SequenceMatcher ratios agree. -/
theorem c7_witness :
    sequence_similarity "tell me more" "me tell more" =
        sequence_similarity "me tell more" "tell me more" ∧
      calculate_similarity "tell me more" "me tell more" =
        calculate_similarity "me tell more" "tell me more" :=
  ⟨by decide, c7_calculate_similarity_symm _ _ (by decide)⟩

/-! ## claude.py: build_qa_index / find_matching_qa_pair_fast

The in-memory Q&A index `self._qa_index` is a Python dict keyed by
normalized question strings; it is modelled as an insertion-ordered
association list with in-place update on existing keys (exactly a Python
dict's key order and overwrite semantics). -/

/-- A prepared Q&A pair (`qa_pair` dict from the database). -/
structure QAPair where
  id : Nat
  question : String
  question_variations : List String
  answer : String
deriving DecidableEq, Repr

/-- Python dict assignment `m[k] = v`: update in place when k exists
(keeping its key position), else append. -/
def dictInsert : List (String × QAPair) → String → QAPair → List (String × QAPair)
  | [], k, v => [(k, v)]
  | (k', v') :: rest, k, v =>
    if k' = k then (k', v) :: rest else (k', v') :: dictInsert rest k v

/-- Python dict lookup `m.get(k)` (keys are unique by construction). -/
def dictGet (m : List (String × QAPair)) (k : String) : Option QAPair :=
  (m.find? (fun p => p.1 == k)).map (fun p => p.2)

/-- The guard `if variation and variation.strip():` of `build_qa_index`. -/
def variationKept (v : String) : Bool :=
  decide (v ≠ "") && decide (pyStrip v ≠ "")

/-- The variation-indexing inner loop of `build_qa_index`. -/
def insertVariations (m : List (String × QAPair)) (vs : List String)
    (qp : QAPair) : List (String × QAPair) :=
  vs.foldl
    (fun acc v =>
      if variationKept v then dictInsert acc (normalize_question v) qp else acc)
    m

/-- Indexing of one pair in `build_qa_index`: the main question first,
then every non-blank variation, all mapping to the pair. -/
def insertPairKeys (m : List (String × QAPair)) (qp : QAPair) :
    List (String × QAPair) :=
  insertVariations (dictInsert m (normalize_question qp.question) qp)
    qp.question_variations qp

/-- Embeds `build_qa_index` (claude.py): clear the index, then index
every pair under its normalized main question and normalized non-blank
variations. -/
def build_qa_index (qa_pairs : List QAPair) : List (String × QAPair) :=
  qa_pairs.foldl insertPairKeys []

/-- The similarity fallback loop of `find_matching_qa_pair_fast`:
iterate the index in key order, track the strictly best similarity, exit
early at ≥ 0.95, and finally apply the 0.85 threshold. -/
def qaSimLoop (nq : String) :
    List (String × QAPair) → Q → Option QAPair → Option QAPair
  | [], best_similarity, best_match =>
    if qLe (qMk 85 100) best_similarity then best_match else none
  | (k, qp) :: rest, best_similarity, best_match =>
    let s := calculate_similarity nq k
    if qLt best_similarity s then
      if qLe (qMk 95 100) s then some qp
      else qaSimLoop nq rest s (some qp)
    else qaSimLoop nq rest best_similarity best_match

/-- Embeds `find_matching_qa_pair_fast` (claude.py): empty-index guard,
O(1) exact lookup of the normalized question, then the similarity
fallback. -/
def find_matching_qa_pair_fast (idx : List (String × QAPair))
    (question : String) : Option QAPair :=
  if idx = [] then none
  else
    let nq := normalize_question question
    match dictGet idx nq with
    | some qp => some qp
    | none => qaSimLoop nq idx (qMk 0 1) none

/-- The normalized keys under which `build_qa_index` files a pair. -/
def statedKeys (qp : QAPair) : List String :=
  normalize_question qp.question ::
    (qp.question_variations.filter variationKept).map normalize_question

theorem dictGet_dictInsert (m : List (String × QAPair)) (k k' : String)
    (v : QAPair) :
    dictGet (dictInsert m k v) k' =
      if k' = k then some v else dictGet m k' := by
  induction m with
  | nil =>
    by_cases h : k' = k
    · have hbeq : (k == k') = true := beq_iff_eq.mpr h.symm
      simp [dictInsert, dictGet, List.find?, hbeq, h]
    · have hbeq : (k == k') = false := beq_eq_false_iff_ne.mpr (fun hc => h hc.symm)
      simp [dictInsert, dictGet, List.find?, hbeq, h]
  | cons p rest ih =>
    obtain ⟨k1, v1⟩ := p
    by_cases hk : k1 = k
    · subst hk
      simp only [dictInsert, if_pos rfl]
      by_cases h : k' = k1
      · subst h
        simp [dictGet, List.find?]
      · have hbeq : (k1 == k') = false :=
          beq_eq_false_iff_ne.mpr (fun hc => h hc.symm)
        simp [dictGet, List.find?, hbeq, h]
    · simp only [dictInsert, if_neg hk]
      by_cases hp : (k1 == k') = true
      · have h : ¬ k' = k := by
          intro hc
          exact hk (by rw [beq_iff_eq.mp hp, hc])
        simp [dictGet, List.find?, hp, h]
      · have hbeq : (k1 == k') = false := by
          cases hb : (k1 == k') with
          | false => rfl
          | true => exact absurd hb hp
        simp only [dictGet, List.find?, hbeq, cond_false]
        have := ih
        simp only [dictGet] at this
        exact this

theorem dictGet_insertVariations (vs : List String) (m : List (String × QAPair))
    (qp : QAPair) (K : String) :
    dictGet (insertVariations m vs qp) K =
      if ∃ v ∈ vs, variationKept v = true ∧ normalize_question v = K then some qp
      else dictGet m K := by
  induction vs generalizing m with
  | nil => simp [insertVariations]
  | cons v vs ih =>
    simp only [insertVariations, List.foldl_cons]
    by_cases hv : variationKept v = true
    · rw [if_pos hv]
      rw [show (List.foldl _ (dictInsert m (normalize_question v) qp) vs) =
          insertVariations (dictInsert m (normalize_question v) qp) vs qp from rfl]
      rw [ih]
      by_cases hex : ∃ v' ∈ vs, variationKept v' = true ∧ normalize_question v' = K
      · rw [if_pos hex, if_pos ?side]
        case side =>
          obtain ⟨v', hv', hk', hn'⟩ := hex
          exact ⟨v', List.mem_cons_of_mem _ hv', hk', hn'⟩
      · rw [if_neg hex, dictGet_dictInsert]
        by_cases hK : K = normalize_question v
        · rw [if_pos hK, if_pos ⟨v, List.mem_cons_self _ _, hv, hK.symm⟩]
        · rw [if_neg hK, if_neg ?side]
          case side =>
            rintro ⟨v', hv', hk', hn'⟩
            rcases List.mem_cons.mp hv' with rfl | hmem
            · exact hK hn'.symm
            · exact hex ⟨v', hmem, hk', hn'⟩
    · rw [if_neg hv]
      rw [show (List.foldl _ m vs) = insertVariations m vs qp from rfl]
      rw [ih]
      by_cases hex : ∃ v' ∈ vs, variationKept v' = true ∧ normalize_question v' = K
      · rw [if_pos hex, if_pos ?side]
        case side =>
          obtain ⟨v', hv', hk', hn'⟩ := hex
          exact ⟨v', List.mem_cons_of_mem _ hv', hk', hn'⟩
      · rw [if_neg hex, if_neg ?side]
        case side =>
          rintro ⟨v', hv', hk', hn'⟩
          rcases List.mem_cons.mp hv' with rfl | hmem
          · exact hv hk'
          · exact hex ⟨v', hmem, hk', hn'⟩

theorem dictGet_insertPairKeys (m : List (String × QAPair)) (qp : QAPair)
    (K : String) :
    dictGet (insertPairKeys m qp) K =
      if K ∈ statedKeys qp then some qp else dictGet m K := by
  unfold insertPairKeys
  rw [dictGet_insertVariations]
  by_cases hex : ∃ v ∈ qp.question_variations, variationKept v = true ∧
      normalize_question v = K
  · rw [if_pos hex, if_pos ?side]
    case side =>
      obtain ⟨v, hv, hk, hn⟩ := hex
      exact List.mem_cons_of_mem _
        (List.mem_map.mpr ⟨v, List.mem_filter.mpr ⟨hv, hk⟩, hn⟩)
  · rw [if_neg hex, dictGet_dictInsert]
    by_cases hK : K = normalize_question qp.question
    · rw [if_pos hK, if_pos (by rw [hK]; exact List.mem_cons_self _ _)]
    · rw [if_neg hK, if_neg ?side]
      case side =>
        intro hmem
        rcases List.mem_cons.mp hmem with h | h
        · exact hK h
        · obtain ⟨v, hv, hn⟩ := List.mem_map.mp h
          obtain ⟨hv', hk⟩ := List.mem_filter.mp hv
          exact hex ⟨v, hv', hk, hn⟩

theorem dictGet_foldl_noTouch (ps : List QAPair) (K : String)
    (h : ∀ p ∈ ps, K ∉ statedKeys p) (m : List (String × QAPair)) :
    dictGet (ps.foldl insertPairKeys m) K = dictGet m K := by
  induction ps generalizing m with
  | nil => rfl
  | cons r rs ih =>
    simp only [List.foldl_cons]
    rw [ih (fun p hp => h p (List.mem_cons_of_mem _ hp)), dictGet_insertPairKeys,
      if_neg (h r (List.mem_cons_self _ _))]

theorem dictGet_buildFold (pairs : List QAPair) (K : String) (qp : QAPair) :
    ∀ m : List (String × QAPair),
      (∃ p ∈ pairs, K ∈ statedKeys p) →
      (∀ p ∈ pairs, K ∈ statedKeys p → p = qp) →
      dictGet (pairs.foldl insertPairKeys m) K = some qp := by
  induction pairs with
  | nil =>
    intro m hex _
    obtain ⟨p, hp, -⟩ := hex
    cases hp
  | cons p ps ih =>
    intro m hex huniq
    simp only [List.foldl_cons]
    by_cases hex' : ∃ p' ∈ ps, K ∈ statedKeys p'
    · exact ih (insertPairKeys m p) hex'
        (fun p' hp' hk => huniq p' (List.mem_cons_of_mem _ hp') hk)
    · have hnotouch : ∀ p' ∈ ps, K ∉ statedKeys p' := by
        intro p' hp' hk
        exact hex' ⟨p', hp', hk⟩
      have hKp : K ∈ statedKeys p := by
        obtain ⟨p', hp', hk'⟩ := hex
        rcases List.mem_cons.mp hp' with rfl | hmem
        · exact hk'
        · exact absurd hk' (hnotouch p' hmem)
      rw [dictGet_foldl_noTouch ps K hnotouch (insertPairKeys m p),
        dictGet_insertPairKeys, if_pos hKp,
        huniq p (List.mem_cons_self _ _) hKp]

/-- C6 (counterexample): with two distinct items both stating the same
main question, exact lookup of that question returns the later item (dict
overwrite), not the earlier one — so the claim "returns that item" fails
for the earlier item even though the question is its main question. -/
theorem c6_counterexample :
    find_matching_qa_pair_fast
        (build_qa_index
          [⟨1, "Tell me about yourself", [], "answer one"⟩,
           ⟨2, "Tell me about yourself", [], "answer two"⟩])
        "Tell me about yourself" =
      some ⟨2, "Tell me about yourself", [], "answer two"⟩ ∧
    (⟨1, "Tell me about yourself", [], "answer one"⟩ : QAPair) ≠
      ⟨2, "Tell me about yourself", [], "answer two"⟩ := by
  constructor
  · decide
  · decide

/-- C6 (amended): after the index is rebuilt from a list of items, exact
lookup of a question Q that is the main question or a non-blank stated
variation of an item returns that item, PROVIDED no other item in the
list states a question with the same normalized form (otherwise the last
such item wins, by dict overwrite).  The code attaches no similarity
score on this path — similarity 1.0 is implicit in the exact-key hit. -/
theorem c6_exact_lookup (pairs : List QAPair) (qp : QAPair) (q : String)
    (hmem : qp ∈ pairs)
    (hq : normalize_question q ∈ statedKeys qp)
    (huniq : ∀ p ∈ pairs, normalize_question q ∈ statedKeys p → p = qp) :
    find_matching_qa_pair_fast (build_qa_index pairs) q = some qp := by
  have hget : dictGet (build_qa_index pairs) (normalize_question q) = some qp :=
    dictGet_buildFold pairs (normalize_question q) qp [] ⟨qp, hmem, hq⟩ huniq
  unfold find_matching_qa_pair_fast
  have hne : build_qa_index pairs ≠ [] := by
    intro hc
    rw [hc] at hget
    cases hget
  rw [if_neg hne]
  simp only [hget]

/-- C6 (witness): the exact-lookup theorem applied to a concrete index
where Q is a stated variation of the single item. -/
theorem c6_witness :
    find_matching_qa_pair_fast
        (build_qa_index [⟨1, "Tell me about yourself", ["Introduce yourself"],
          "I am a backend engineer"⟩])
        "Introduce yourself!" =
      some ⟨1, "Tell me about yourself", ["Introduce yourself"],
        "I am a backend engineer"⟩ :=
  c6_exact_lookup _ _ _ (by decide) (by decide) (by decide)

/-! ## claude.py: decompose_question

The external structured OpenAI call is modelled by an explicit outcome:
it may return a list of sub-questions, time out (`asyncio.TimeoutError`),
or fail with any other exception.  The heuristic fallback
`re.split(r'\s+(?:and|however|also|but)\s+', q, flags=IGNORECASE)` is
embedded as a character scan: at most one conjunction alternative can
letter-match at a given position (no alternative is a prefix of another),
greedy `\s+` is maximal since no alternative begins with whitespace, and
matches are consumed left to right without overlap — exactly the regex
engine's behavior on this pattern. -/

/-- The coordinating conjunctions of the heuristic split, in the
pattern's alternation order. -/
def conjList : List String := ["and", "however", "also", "but"]

/-- Length of the leading whitespace run. -/
def wsRunLen (l : List Char) : Nat := (l.takeWhile Char.isWhitespace).length

/-- Match of the split pattern at the head of l: one-or-more whitespace,
a conjunction (case-insensitive), one-or-more whitespace.  Returns the
number of characters consumed. -/
def conjAt (l : List Char) : Option Nat :=
  let w1 := wsRunLen l
  if w1 = 0 then none
  else
    let rest := l.drop w1
    match conjList.find?
        (fun c => decide ((rest.take c.data.length).map Char.toLower = c.data)) with
    | none => none
    | some c =>
      let rest2 := rest.drop c.data.length
      let w2 := wsRunLen rest2
      if w2 = 0 then none else some (w1 + c.data.length + w2)

/-- Left-to-right non-overlapping split on the conjunction pattern.  The
fuel is the remaining length (each match consumes ≥ 3 characters); the
fuel-0 fallback emits the remainder unchanged and is never reached. -/
def splitConjAux : Nat → List Char → List Char → List String
  | 0, acc, l => [String.mk (acc.reverse ++ l)]
  | _ + 1, acc, [] => [String.mk acc.reverse]
  | fuel + 1, acc, c :: rest =>
    match conjAt (c :: rest) with
    | some n => String.mk acc.reverse :: splitConjAux fuel [] ((c :: rest).drop n)
    | none => splitConjAux fuel (c :: acc) rest

/-- The raw `re.split` result (parts between matches, possibly empty). -/
def pyReSplitConj (q : String) : List String :=
  splitConjAux q.data.length [] q.data

/-- The `heuristic_split` closure of `decompose_question`:
`[p.strip() for p in parts if p.strip()]`. -/
def heuristic_split (q : String) : List String :=
  ((pyReSplitConj q).map pyStrip).filter (fun p => p ≠ "")

/-- Outcome of the external decomposition call. -/
inductive DecomposeOutcome
  | ok (queries : List String)
  | timeout
  | failed
deriving DecidableEq, Repr

/-- Embeds `decompose_question` (claude.py): truncate the external
call's list to 3 on success; on timeout, the heuristic split truncated to
3; on any other failure, the heuristic split truncated to 3 with `[q]`
substituted when the split is empty.  (Only the error path guards
against an empty result — the timeout path does not.) -/
def decompose_question (question : String) : DecomposeOutcome → List String
  | .ok queries => if queries.length > 3 then queries.take 3 else queries
  | .timeout =>
    let queries := heuristic_split question
    if queries.length > 3 then queries.take 3 else queries
  | .failed =>
    let queries := heuristic_split question
    if queries.length > 3 then queries.take 3
    else if queries = [] then [question] else queries

/-- No position of q matches the conjunction split pattern. -/
def noConjB (q : String) : Bool :=
  (List.range (q.data.length + 1)).all (fun i => (conjAt (q.data.drop i)).isNone)

theorem splitConjAux_noMatch (fuel : Nat) :
    ∀ (acc l : List Char), l.length ≤ fuel →
      (∀ i, (conjAt (l.drop i)).isNone = true) →
      splitConjAux fuel acc l = [String.mk (acc.reverse ++ l)] := by
  induction fuel with
  | zero => intro acc l _ _; rfl
  | succ fuel ih =>
    intro acc l hlen hno
    match l with
    | [] => simp [splitConjAux]
    | c :: rest =>
      have h0 := hno 0
      simp only [List.drop_zero] at h0
      unfold splitConjAux
      match hmatch : conjAt (c :: rest) with
      | some n => rw [hmatch] at h0; cases h0
      | none =>
        rw [ih (c :: acc) rest (by simpa using Nat.le_of_succ_le_succ hlen)
          (fun i => by simpa using hno (i + 1))]
        simp

theorem pyReSplitConj_noMatch (q : String) (h : noConjB q = true) :
    pyReSplitConj q = [q] := by
  have hall : ∀ i, (conjAt (q.data.drop i)).isNone = true := by
    intro i
    by_cases hi : i < q.data.length + 1
    · exact List.all_eq_true.mp h i (List.mem_range.mpr hi)
    · rw [List.drop_eq_nil_of_le (by omega)]
      rfl
  unfold pyReSplitConj
  rw [splitConjAux_noMatch q.data.length [] q.data (le_refl _) hall]
  rfl

/-- C8 (counterexample): on the non-empty question " and " the timeout
fallback returns the empty list — zero sub-questions, not between 1 and
3 — because the regex consumes the whole string, both parts strip to
empty, and the timeout path (unlike the error path) does not substitute
`[question]` for an empty split. -/
theorem c8_counterexample :
    decompose_question " and " DecomposeOutcome.timeout = [] ∧
      (" and " : String) ≠ "" := by
  constructor
  · decide
  · decide

/-- C8 (amended): decompose_question never returns more than 3
sub-questions, and the error path always returns at least one (falling
back to the whole question); but the timeout path returns exactly the
heuristic split truncated to 3, which is empty for questions that strip
to nothing between conjunctions (e.g. " and "), and the success path
returns the external call's list truncated to 3, which is empty when the
call returns no queries.  A question with no conjunction match that
strips to a non-empty string yields exactly one sub-question — the
stripped question — on both fallback paths. -/
theorem c8_decompose_bounds (q : String) (o : DecomposeOutcome) :
    (decompose_question q o).length ≤ 3 ∧
      (o = DecomposeOutcome.failed → 1 ≤ (decompose_question q o).length) ∧
      (decompose_question q DecomposeOutcome.timeout =
        (heuristic_split q).take 3) ∧
      (noConjB q = true → pyStrip q ≠ "" →
        decompose_question q DecomposeOutcome.timeout = [pyStrip q] ∧
          decompose_question q DecomposeOutcome.failed = [pyStrip q]) := by
  refine ⟨?_, ?_, ?_, ?_⟩
  · match o with
    | .ok queries =>
      by_cases h : queries.length > 3
      · simp [decompose_question, h]
      · simp only [decompose_question, if_neg h]
        omega
    | .timeout =>
      by_cases h : (heuristic_split q).length > 3
      · simp [decompose_question, h]
      · simp only [decompose_question, if_neg h]
        omega
    | .failed =>
      by_cases h : (heuristic_split q).length > 3
      · simp [decompose_question, h]
      · simp only [decompose_question, if_neg h]
        by_cases he : heuristic_split q = []
        · simp [he]
        · simp only [if_neg he]
          omega
  · intro ho
    subst ho
    by_cases h : (heuristic_split q).length > 3
    · simp [decompose_question, h]
      omega
    · simp only [decompose_question, if_neg h]
      by_cases he : heuristic_split q = []
      · simp [he]
      · simp only [if_neg he]
        have : heuristic_split q ≠ [] := he
        have hpos : 0 < (heuristic_split q).length := List.length_pos.mpr this
        omega
  · by_cases h : (heuristic_split q).length > 3
    · simp [decompose_question, h]
    · simp only [decompose_question, if_neg h]
      rw [List.take_of_length_le (by omega)]
  · intro hno hstrip
    have hsplit : heuristic_split q = [pyStrip q] := by
      unfold heuristic_split
      rw [pyReSplitConj_noMatch q hno]
      simp [hstrip]
    constructor
    · simp [decompose_question, hsplit]
    · simp [decompose_question, hsplit]

/-- C8 (witness): the bounds theorem applied to a concrete simple
question on the error path. -/
theorem c8_witness :
    (decompose_question "Tell me about yourself" DecomposeOutcome.failed).length ≤ 3 ∧
      decompose_question "Tell me about yourself" DecomposeOutcome.failed =
        ["Tell me about yourself"] := by
  have h := c8_decompose_bounds "Tell me about yourself" DecomposeOutcome.failed
  refine ⟨h.1, ?_⟩
  have h2 := (h.2.2.2 (by decide) (by decide)).2
  exact h2.trans (by decide)

/-! ## claude.py: find_relevant_qa_pairs (merge / dedup / sort step)

Steps 3 and 4 of `find_relevant_qa_pairs`: the per-sub-question semantic
searches are external (their outcomes are the input lists of hits); the
embedded part is the pure merge — flag, deduplicate by id, sort by
similarity descending (Python's stable sort), truncate. -/

/-- One semantic search hit as returned by the vector backend. -/
structure SearchHit where
  id : Nat
  similarity : Q
  answer : String
deriving DecidableEq, Repr

/-- A merged candidate: a hit plus the `is_exact_match` flag the merge
loop attaches (`similarity > 0.92`). -/
structure RagCand where
  id : Nat
  similarity : Q
  answer : String
  is_exact_match : Bool
deriving DecidableEq, Repr

/-- The flag assignment of the merge loop. -/
def flagHit (h : SearchHit) : RagCand :=
  ⟨h.id, h.similarity, h.answer, qLt (qMk 92 100) h.similarity⟩

/-- The dedup loop: walk all hits in sub-search order, keep the first
occurrence of each id (`if match['id'] not in seen_ids`). -/
def dedupById : List SearchHit → List Nat → List RagCand
  | [], _ => []
  | h :: rest, seen =>
    if h.id ∈ seen then dedupById rest seen
    else flagHit h :: dedupById rest (h.id :: seen)

/-- Stable descending insertion: the new candidate goes before the first
strictly-smaller similarity, hence after all its ties. -/
def insertDescBySim (c : RagCand) : List RagCand → List RagCand
  | [] => [c]
  | d :: rest =>
    if qLt d.similarity c.similarity then c :: d :: rest
    else d :: insertDescBySim c rest

/-- Python's `sort(key=similarity, reverse=True)`: stable descending
(elements processed in order, each inserted after its ties). -/
def sortDescBySim (l : List RagCand) : List RagCand :=
  l.foldl (fun acc c => insertDescBySim c acc) []

/-- Embeds steps 3-4 of `find_relevant_qa_pairs` (claude.py): merge all
sub-search results, flag, dedup by id keeping the first occurrence, sort
by similarity descending, return the top `max_total_results`. -/
def mergeSearchResults (search_results : List (List SearchHit))
    (max_total_results : Nat) : List RagCand :=
  (sortDescBySim (dedupById search_results.flatten [])).take max_total_results

/-- A fraction with a positive denominator (every score the vector
backend can produce). -/
def qValid (x : Q) : Prop := 0 < x.den

instance qValidDecidable (x : Q) : Decidable (qValid x) :=
  Nat.decLt 0 x.den

theorem qLe_trans (x y z : Q) (hy : qValid y)
    (h1 : qLe x y = true) (h2 : qLe y z = true) : qLe x z = true := by
  unfold qLe at *
  simp only [decide_eq_true_eq] at *
  have h3 : x.num * z.den * y.den ≤ z.num * x.den * y.den := by
    calc x.num * z.den * y.den = x.num * y.den * z.den := by ring
    _ ≤ y.num * x.den * z.den := Nat.mul_le_mul_right _ h1
    _ = y.num * z.den * x.den := by ring
    _ ≤ z.num * y.den * x.den := Nat.mul_le_mul_right _ h2
    _ = z.num * x.den * y.den := by ring
  exact Nat.le_of_mul_le_mul_right h3 hy

theorem qLt_false_le (x y : Q) (h : qLt x y = false) : qLe y x = true := by
  unfold qLt at h
  unfold qLe
  simp only [decide_eq_true_eq]
  simp only [decide_eq_false_iff_not, Nat.not_lt] at h
  exact h

theorem qLt_le (x y : Q) (h : qLt x y = true) : qLe x y = true := by
  unfold qLt at h
  unfold qLe
  simp only [decide_eq_true_eq]
  simp only [decide_eq_true_eq] at h
  omega

/-- Descending order between candidates (left has the larger score). -/
def simGE (a b : RagCand) : Prop := qLe b.similarity a.similarity = true

theorem insertDescBySim_perm (c : RagCand) (l : List RagCand) :
    List.Perm (insertDescBySim c l) (c :: l) := by
  induction l with
  | nil => rfl
  | cons d rest ih =>
    unfold insertDescBySim
    by_cases h : qLt d.similarity c.similarity = true
    · rw [if_pos h]
    · rw [if_neg h]
      exact ((ih.cons d).trans (List.Perm.swap c d rest)).symm.symm

theorem sortDescBySim_perm (l : List RagCand) :
    List.Perm (sortDescBySim l) l := by
  have haux : ∀ (l acc : List RagCand),
      List.Perm (l.foldl (fun acc c => insertDescBySim c acc) acc) (acc ++ l) := by
    intro l
    induction l with
    | nil => intro acc; simp
    | cons x xs ih =>
      intro acc
      simp only [List.foldl_cons]
      refine (ih (insertDescBySim x acc)).trans ?_
      have h1 : List.Perm (insertDescBySim x acc ++ xs) ((x :: acc) ++ xs) :=
        (insertDescBySim_perm x acc).append_right xs
      refine h1.trans ?_
      simp only [List.cons_append]
      exact List.perm_middle.symm
  simpa using haux l []

theorem insertDescBySim_sorted (c : RagCand) (l : List RagCand)
    (hval : ∀ x ∈ l, qValid x.similarity)
    (hsorted : List.Pairwise simGE l) :
    List.Pairwise simGE (insertDescBySim c l) := by
  induction l with
  | nil => simp [insertDescBySim, List.Pairwise]
  | cons d rest ih =>
    unfold insertDescBySim
    by_cases h : qLt d.similarity c.similarity = true
    · rw [if_pos h]
      have hcd : simGE c d := qLt_le _ _ h
      refine List.Pairwise.cons ?_ hsorted
      intro x hx
      rcases List.mem_cons.mp hx with rfl | hx'
      · exact hcd
      · have hdx : simGE d x := (List.pairwise_cons.mp hsorted).1 x hx'
        exact qLe_trans _ _ _ (hval d (List.mem_cons_self _ _)) hdx hcd
    · rw [if_neg h]
      have hdc : simGE d c := qLt_false_le _ _ (Bool.eq_false_iff.mpr h)
      refine List.Pairwise.cons ?_
        (ih (fun x hx => hval x (List.mem_cons_of_mem _ hx))
          (List.pairwise_cons.mp hsorted).2)
      intro x hx
      have hx' := (insertDescBySim_perm c rest).mem_iff.mp hx
      rcases List.mem_cons.mp hx' with rfl | hx''
      · exact hdc
      · exact (List.pairwise_cons.mp hsorted).1 x hx''

theorem sortDescBySim_sorted (l : List RagCand)
    (hval : ∀ x ∈ l, qValid x.similarity) :
    List.Pairwise simGE (sortDescBySim l) := by
  have haux : ∀ (l acc : List RagCand),
      (∀ x ∈ l, qValid x.similarity) →
      (∀ x ∈ acc, qValid x.similarity) →
      List.Pairwise simGE acc →
      List.Pairwise simGE (l.foldl (fun acc c => insertDescBySim c acc) acc) := by
    intro l
    induction l with
    | nil => intro acc _ _ hs; exact hs
    | cons x xs ih =>
      intro acc hl hacc hs
      simp only [List.foldl_cons]
      refine ih (insertDescBySim x acc)
        (fun y hy => hl y (List.mem_cons_of_mem _ hy)) ?_ ?_
      · intro y hy
        rcases List.mem_cons.mp ((insertDescBySim_perm x acc).mem_iff.mp hy) with
          rfl | hy'
        · exact hl y (List.mem_cons_self _ _)
        · exact hacc y hy'
      · exact insertDescBySim_sorted x acc hacc hs
  exact haux l [] hval (by intro x hx; cases hx) List.Pairwise.nil

theorem dedupById_mem (l : List SearchHit) (seen : List Nat) (c : RagCand)
    (hc : c ∈ dedupById l seen) :
    c.id ∉ seen ∧
      l.find? (fun h => h.id == c.id) = some ⟨c.id, c.similarity, c.answer⟩ ∧
      c.is_exact_match = qLt (qMk 92 100) c.similarity := by
  induction l generalizing seen with
  | nil => cases hc
  | cons h rest ih =>
    unfold dedupById at hc
    by_cases hseen : h.id ∈ seen
    · rw [if_pos hseen] at hc
      obtain ⟨hid, hfind, hflag⟩ := ih seen hc
      refine ⟨hid, ?_, hflag⟩
      have hne : (h.id == c.id) = false := by
        rw [beq_eq_false_iff_ne]
        intro hcontra
        exact hid (hcontra ▸ hseen)
      rw [List.find?_cons_of_neg _ (by simp [hne]), hfind]
    · rw [if_neg hseen] at hc
      rcases List.mem_cons.mp hc with rfl | hc'
      · refine ⟨hseen, ?_, rfl⟩
        rw [List.find?_cons_of_pos _ (by simp [flagHit])]
        rfl
      · obtain ⟨hid, hfind, hflag⟩ := ih (h.id :: seen) hc'
        have hne : c.id ≠ h.id := fun hcontra =>
          hid (hcontra ▸ List.mem_cons_self _ _)
        refine ⟨fun hmem => hid (List.mem_cons_of_mem _ hmem), ?_, hflag⟩
        have hstep : List.find? (fun x : SearchHit => x.id == c.id) (h :: rest) =
            List.find? (fun x : SearchHit => x.id == c.id) rest :=
          List.find?_cons_of_neg rest
            (by simp only [beq_iff_eq]; exact fun hcontra => hne hcontra.symm)
        rw [hstep, hfind]

theorem dedupById_nodup (l : List SearchHit) (seen : List Nat) :
    ((dedupById l seen).map (fun c => c.id)).Nodup := by
  induction l generalizing seen with
  | nil => exact List.nodup_nil
  | cons h rest ih =>
    unfold dedupById
    by_cases hseen : h.id ∈ seen
    · rw [if_pos hseen]
      exact ih seen
    · rw [if_neg hseen]
      simp only [List.map_cons]
      refine List.Nodup.cons ?_ (ih (h.id :: seen))
      intro hmem
      obtain ⟨c, hc, hcid⟩ := List.mem_map.mp hmem
      have := (dedupById_mem rest (h.id :: seen) c hc).1
      rw [flagHit] at hcid
      exact this (by simp at hcid; rw [← hcid]; exact List.mem_cons_self _ _)

/-- C4 (counterexample): when the same item id is returned by two
sub-searches with different similarities, the merge keeps the FIRST
occurrence in sub-search order, not the highest similarity: id 1 seen
first at 0.7 and again at 0.9 is kept at 0.7. -/
theorem c4_counterexample :
    mergeSearchResults [[⟨1, qMk 7 10, "a"⟩], [⟨1, qMk 9 10, "a"⟩]] 5 =
        [⟨1, qMk 7 10, "a", false⟩] ∧
      qMk 7 10 ≠ qMk 9 10 := by
  constructor
  · decide
  · decide

/-- C4 (amended): the merge step deduplicates by item identity keeping
the FIRST occurrence in sub-search order (not the highest similarity
seen), sorts by similarity descending (stably), returns at most
`max_total_results = 5` candidates, and flags a candidate `is_exact_match`
exactly when its (kept) similarity exceeds 0.92.  Formally: every output
candidate is the first hit with its id in the flattened search results,
output ids are pairwise distinct, the output is descending in similarity,
and its length is at most K. -/
theorem c4_merge_characterization (search_results : List (List SearchHit))
    (K : Nat)
    (hval : ∀ l ∈ search_results, ∀ h ∈ l, qValid h.similarity) :
    (mergeSearchResults search_results K).length ≤ K ∧
      List.Pairwise simGE (mergeSearchResults search_results K) ∧
      ((mergeSearchResults search_results K).map (fun c => c.id)).Nodup ∧
      (∀ c ∈ mergeSearchResults search_results K,
        c.is_exact_match = qLt (qMk 92 100) c.similarity ∧
          search_results.flatten.find? (fun h => h.id == c.id) =
            some ⟨c.id, c.similarity, c.answer⟩) := by
  have hjoinval : ∀ h ∈ search_results.flatten, qValid h.similarity := by
    intro h hh
    obtain ⟨l, hl, hhl⟩ := List.mem_flatten.mp hh
    exact hval l hl h hhl
  have hdedupval : ∀ c ∈ dedupById search_results.flatten [], qValid c.similarity := by
    intro c hc
    obtain ⟨-, hfind, -⟩ := dedupById_mem _ _ c hc
    have hmem := List.mem_of_find?_eq_some hfind
    exact hjoinval _ hmem
  have hsortmem : ∀ c ∈ sortDescBySim (dedupById search_results.flatten []),
      c ∈ dedupById search_results.flatten [] := by
    intro c hc
    exact (sortDescBySim_perm _).mem_iff.mp hc
  refine ⟨List.length_take_le _ _, ?_, ?_, ?_⟩
  · exact (sortDescBySim_sorted _ hdedupval).sublist (List.take_sublist _ _)
  · have hperm : List.Perm
        ((sortDescBySim (dedupById search_results.flatten [])).map (fun c => c.id))
        ((dedupById search_results.flatten []).map (fun c => c.id)) :=
      (sortDescBySim_perm _).map _
    have hnd : ((sortDescBySim (dedupById search_results.flatten [])).map
        (fun c => c.id)).Nodup :=
      hperm.nodup_iff.mpr (dedupById_nodup _ _)
    exact hnd.sublist ((List.take_sublist _ _).map _)
  · intro c hc
    have hc' := hsortmem c (List.mem_of_mem_take hc)
    obtain ⟨-, hfind, hflag⟩ := dedupById_mem _ _ c hc'
    exact ⟨hflag, hfind⟩

/-- C4 (witness): the characterization applied to concrete sub-search
results containing a duplicate id and an above-threshold score. -/
theorem c4_witness :
    (mergeSearchResults [[⟨1, qMk 7 10, "a"⟩, ⟨2, qMk 95 100, "b"⟩],
        [⟨1, qMk 9 10, "a"⟩]] 5).length ≤ 5 ∧
      (∀ c ∈ mergeSearchResults [[⟨1, qMk 7 10, "a"⟩, ⟨2, qMk 95 100, "b"⟩],
          [⟨1, qMk 9 10, "a"⟩]] 5,
        c.is_exact_match = qLt (qMk 92 100) c.similarity ∧
          ([[⟨1, qMk 7 10, "a"⟩, ⟨2, qMk 95 100, "b"⟩],
            [⟨1, qMk 9 10, "a"⟩]] : List (List SearchHit)).flatten.find?
              (fun h => h.id == c.id) =
            some ⟨c.id, c.similarity, c.answer⟩) := by
  have h := c4_merge_characterization
    [[⟨1, qMk 7 10, "a"⟩, ⟨2, qMk 95 100, "b"⟩], [⟨1, qMk 9 10, "a"⟩]] 5
    (by decide)
  exact ⟨h.1, h.2.2.2⟩

/-! ## llm_service.py: strategy wiring and generation failover

The two generation services are modelled as oracles: a streamed
generation either yields its chunks or raises (after yielding any prefix),
and the non-streaming `generate_answer` used on the fallback path either
returns an answer or raises. -/

/-- The two concrete services of llm_service.py. -/
inductive ServiceId
  | glmService
  | claudeService
deriving DecidableEq, Repr

/-- Behavior of one generation backend. -/
structure GenBackend where
  hasStream : Bool
  streamChunks : List String
  streamRaises : Bool
  answerResult : Except Unit String
deriving Repr

/-- The user-visible error chunk of `LLMService.generate_answer_stream`. -/
def errorChunk : String := "\n\n⚠️ Error generating answer. Please try again."

/-- Embeds the `LLMService.__init__` strategy dispatch: primary service
and optional fallback per configured strategy string (unknown strategies
default to Claude with no fallback). -/
def llmConfigure : String → ServiceId × Option ServiceId
  | "claude" => (ServiceId.claudeService, none)
  | "glm" => (ServiceId.glmService, none)
  | "hybrid" => (ServiceId.glmService, some ServiceId.claudeService)
  | _ => (ServiceId.claudeService, none)

/-- The primary-service `try` block of `generate_answer_stream`: stream
when the service has `generate_answer_stream` (chunks, then possibly an
exception), else one chunk from `generate_answer` (whose exception also
lands in the same `except`). -/
def primaryAttempt (primary : GenBackend) : List String × Bool :=
  if primary.hasStream then (primary.streamChunks, primary.streamRaises)
  else
    match primary.answerResult with
    | Except.ok a => ([a], false)
    | Except.error _ => ([], true)

/-- Embeds `LLMService.generate_answer_stream` (llm_service.py): yield
the primary stream; on a primary exception, yield the fallback service's
(non-streaming) answer when a fallback is configured, and the error chunk
when the fallback raises too or none is configured. -/
def llm_generate_answer_stream (primary : GenBackend)
    (fallback : Option GenBackend) : List String :=
  let p := primaryAttempt primary
  if p.2 then
    p.1 ++
      (match fallback with
       | some fb =>
         match fb.answerResult with
         | Except.ok answer => [answer]
         | Except.error _ => [errorChunk]
       | none => [errorChunk])
  else p.1

/-- The answer stream produced under the hybrid strategy (the configured
default), with `env` giving each service's behavior. -/
def hybridStream (env : ServiceId → GenBackend) : List String :=
  llm_generate_answer_stream (env (llmConfigure "hybrid").1)
    (Option.map env (llmConfigure "hybrid").2)

/-- C3: under the hybrid strategy (GLM primary, Claude secondary), if
the primary raises on every call (its stream raises before yielding
anything), the orchestrator's stream is exactly the secondary's answer,
and the user-visible error chunk is emitted exactly when the secondary
also fails. -/
theorem c3_generation_failover (env : ServiceId → GenBackend)
    (hstream : (env ServiceId.glmService).hasStream = true)
    (hchunks : (env ServiceId.glmService).streamChunks = [])
    (hraise : (env ServiceId.glmService).streamRaises = true) :
    (∀ answer : String,
      (env ServiceId.claudeService).answerResult = Except.ok answer →
        hybridStream env = [answer]) ∧
    ((env ServiceId.claudeService).answerResult = Except.error () →
      hybridStream env = [errorChunk]) := by
  constructor
  · intro answer hok
    unfold hybridStream llm_generate_answer_stream primaryAttempt llmConfigure
    simp [hstream, hchunks, hraise, hok]
  · intro herr
    unfold hybridStream llm_generate_answer_stream primaryAttempt llmConfigure
    simp [hstream, hchunks, hraise, herr]

/-- C3 (witness): the failover theorem applied to a concrete environment
where the GLM stream raises immediately and Claude answers. -/
theorem c3_witness :
    hybridStream
        (fun sid =>
          match sid with
          | ServiceId.glmService => ⟨true, [], true, Except.error ()⟩
          | ServiceId.claudeService =>
            ⟨true, ["unused"], false, Except.ok "fallback answer"⟩) =
      ["fallback answer"] :=
  (c3_generation_failover _ rfl rfl rfl).1 "fallback answer" rfl

/-! ## claude.py + websocket.py: the direct-retrieval path (C1)

`ClaudeService.generate_answer_stream` decides between yielding a stored
answer (best semantic candidate ≥ 0.62) and synthesizing; the websocket
`on_transcript` handler wraps whatever the generator yields in
`answer_stream_*` messages and extracts example phrases from the
concatenated yield.  The `answer` message type (direct answer) exists
only in the manual `generate_answer` control-message path. -/

/-- Outbound websocket message shapes relevant to the answering phase. -/
inductive WsMsg
  | question_detected (question question_type : String)
  | answer_temporary (question answer : String)
  | answer_stream_start (question : String)
  | answer_stream_chunk (question chunk : String)
  | answer_stream_end (question : String)
  | answer_direct (question answer source : String)
deriving DecidableEq, Repr

/-- Embeds the head of `ClaudeService.generate_answer_stream`
(claude.py): when a user id and the vector service are present and the
best relevant candidate scores ≥ 0.62, the stored answer is the single
yielded chunk; otherwise the synthesis stream is yielded. -/
def claude_stream_chunks (user_id : Option String) (qdrant_available : Bool)
    (relevant_qa_pairs : List RagCand) (synthesis : List String) :
    List String :=
  if user_id.isSome && qdrant_available then
    match relevant_qa_pairs with
    | best :: _ =>
      if qLe (qMk 62 100) best.similarity then [best.answer] else synthesis
    | [] => synthesis
  else synthesis

/-- The cue words of the example-extraction regex
`(?:Project|at|working on|led|built)\s+([A-Z][A-Za-z0-9\s]{2,30})`. -/
def exampleCues : List String := ["Project", "at", "working on", "led", "built"]

/-- The body character class `[A-Za-z0-9\s]` (ASCII). -/
def exBodyChar (c : Char) : Bool := c.isAlpha || c.isDigit || c.isWhitespace

/-- Match one alternative plus the rest of the extraction pattern at the
head of l; returns consumed length and the captured group.  Greedy
`\s+` and `{2,30}` need no backtracking here because no cue begins with
whitespace and nothing follows the group. -/
def tryCue (l : List Char) (cue : String) : Option (Nat × String) :=
  if cue.data.isPrefixOf l then
    let rest := l.drop cue.data.length
    let w := wsRunLen rest
    if w = 0 then none
    else
      match rest.drop w with
      | [] => none
      | c :: rest2 =>
        if c.isUpper then
          let body := (rest2.takeWhile exBodyChar).take 30
          if 2 ≤ body.length then
            some (cue.data.length + w + 1 + body.length, String.mk (c :: body))
          else none
        else none
  else none

/-- Try the alternatives in the pattern's order (their first letters are
pairwise distinct, so at most one can match at a position). -/
def tryCues (l : List Char) : Option (Nat × String) :=
  exampleCues.findSome? (fun cue => tryCue l cue)

/-- `re.findall` scan: leftmost, non-overlapping. -/
def findallExamplesAux : Nat → List Char → List String
  | 0, _ => []
  | _ + 1, [] => []
  | fuel + 1, c :: rest =>
    match tryCues (c :: rest) with
    | some (n, cap) => cap :: findallExamplesAux fuel ((c :: rest).drop n)
    | none => findallExamplesAux fuel rest

/-- All captures of the example-extraction pattern. -/
def findallExamples (s : String) : List String :=
  findallExamplesAux s.data.length s.data

/-- The example post-processing of `on_transcript` (websocket.py):
strip each capture, keep those longer than 3 characters that are not
already among the session's examples. -/
def extract_new_examples (generated : String) (session_examples : List String) :
    List String :=
  ((findallExamples generated).map pyStrip).filter
    (fun cleaned =>
      decide (3 < cleaned.data.length) && !(session_examples.contains cleaned))

/-- Embeds the answering phase of `websocket_transcribe.on_transcript`
(websocket.py, after a complete question is detected): the emitted
message sequence — `question_detected`, `answer_temporary`,
`answer_stream_start`, one `answer_stream_chunk` per yielded chunk,
`answer_stream_end` — and the updated session example memory
(examples are extracted from the concatenated yield whenever a session is
active and the yield is non-empty). -/
def on_transcript_answer_phase (question question_type temp_answer : String)
    (chunks : List String) (session_active : Bool)
    (session_examples : List String) : List WsMsg × List String :=
  let generated_answer := String.join chunks
  let new_examples :=
    if session_active && decide (generated_answer ≠ "") then
      extract_new_examples generated_answer session_examples
    else []
  ([WsMsg.question_detected question question_type,
    WsMsg.answer_temporary question temp_answer,
    WsMsg.answer_stream_start question]
    ++ chunks.map (fun chunk => WsMsg.answer_stream_chunk question chunk)
    ++ [WsMsg.answer_stream_end question],
   session_examples ++ new_examples)

/-- C1 (counterexample): a turn whose best semantic candidate scores 0.9
(direct retrieval applies).  The stored answer is indeed yielded as a
single chunk, but the client receives `answer_stream_start` / one
`answer_stream_chunk` / `answer_stream_end` and NO direct `answer`
message, and the session's example memory grows: the stored answer
contains "led Project Alpha…", which the extraction regex captures. -/
theorem c1_counterexample :
    claude_stream_chunks (some "user-1") true
        [⟨7, qMk 9 10, "I led Project Alpha at Google", false⟩]
        ["synthesized"] =
      ["I led Project Alpha at Google"] ∧
    on_transcript_answer_phase "Tell me about yourself" "behavioral" "temp"
        ["I led Project Alpha at Google"] true [] =
      ([WsMsg.question_detected "Tell me about yourself" "behavioral",
        WsMsg.answer_temporary "Tell me about yourself" "temp",
        WsMsg.answer_stream_start "Tell me about yourself",
        WsMsg.answer_stream_chunk "Tell me about yourself"
          "I led Project Alpha at Google",
        WsMsg.answer_stream_end "Tell me about yourself"],
       ["Project Alpha at Google"]) := by
  constructor
  · decide
  · decide

/-- C1 (amended): when the best candidate qualifies for direct retrieval
(similarity ≥ 0.62, user id and vector service present), the stored
answer is emitted as a single chunk — but the websocket still wraps it in
`answer_stream_start` / one `answer_stream_chunk` carrying the whole
stored answer / `answer_stream_end` (no direct `answer` message exists on
the auto-detected path), and example extraction runs over the stored
answer, so the session's usage memory is extended by every extractable
example phrase of the stored answer not already recorded. -/
theorem c1_direct_retrieval_behavior (user_id : String) (best : RagCand)
    (rest : List RagCand) (synthesis : List String)
    (question question_type temp_answer : String)
    (session_examples : List String)
    (hsim : qLe (qMk 62 100) best.similarity = true) :
    claude_stream_chunks (some user_id) true (best :: rest) synthesis =
      [best.answer] ∧
    (on_transcript_answer_phase question question_type temp_answer
        (claude_stream_chunks (some user_id) true (best :: rest) synthesis)
        true session_examples).1 =
      [WsMsg.question_detected question question_type,
       WsMsg.answer_temporary question temp_answer,
       WsMsg.answer_stream_start question,
       WsMsg.answer_stream_chunk question best.answer,
       WsMsg.answer_stream_end question] ∧
    (on_transcript_answer_phase question question_type temp_answer
        (claude_stream_chunks (some user_id) true (best :: rest) synthesis)
        true session_examples).2 =
      session_examples ++
        (if decide (best.answer ≠ "") = true then
          extract_new_examples best.answer session_examples
        else []) := by
  have hchunks : claude_stream_chunks (some user_id) true (best :: rest)
      synthesis = [best.answer] := by
    unfold claude_stream_chunks
    simp [hsim]
  refine ⟨hchunks, ?_, ?_⟩
  · rw [hchunks]
    rfl
  · rw [hchunks]
    unfold on_transcript_answer_phase
    have hjoin : String.join [best.answer] = best.answer := by
      show String.join [best.answer] = best.answer
      unfold String.join
      simp
    simp only [hjoin, Bool.true_and]

/-- C1 (witness): the amended theorem applied to the 0.9-similarity
candidate of the counterexample scenario. -/
theorem c1_witness :
    claude_stream_chunks (some "user-1") true
        [⟨7, qMk 9 10, "I am a backend engineer", false⟩] ["synthesized"] =
      ["I am a backend engineer"] ∧
    (on_transcript_answer_phase "Tell me about yourself" "behavioral" "temp"
        (claude_stream_chunks (some "user-1") true
          [⟨7, qMk 9 10, "I am a backend engineer", false⟩] ["synthesized"])
        true []).1 =
      [WsMsg.question_detected "Tell me about yourself" "behavioral",
       WsMsg.answer_temporary "Tell me about yourself" "temp",
       WsMsg.answer_stream_start "Tell me about yourself",
       WsMsg.answer_stream_chunk "Tell me about yourself"
         "I am a backend engineer",
       WsMsg.answer_stream_end "Tell me about yourself"] := by
  have h := c1_direct_retrieval_behavior "user-1"
    ⟨7, qMk 9 10, "I am a backend engineer", false⟩ [] ["synthesized"]
    "Tell me about yourself" "behavioral" "temp" [] (by decide)
  exact ⟨h.1, h.2.1⟩

/-! ## deepgram_service.py: the decoder-output forwarding loop (C5)

`_ffmpeg_to_deepgram_loop` runs on the converter thread: per decoded
chunk it retries the Deepgram send up to 3 times with exponential backoff
(0.1 s, then 0.2 s) on timeout; a fully-failed chunk increments
`consecutive_timeouts`.  The outcome of each send attempt is an oracle
per chunk.  Crucially, all three `break` statements in the failure
handling sit INSIDE the `for attempt in range(max_retries)` retry loop —
they end the retry loop, not the outer `while`, so the while loop
proceeds to the next chunk no matter how many consecutive failures have
accumulated; no unhealthy flag exists and no coordinator callback is
invoked anywhere in the function. -/

/-- Outcome of a single `send_media` attempt. -/
inductive SendAttempt
  | succeeded
  | timedOut
  | failedOther
deriving DecidableEq, Repr

/-- Result of forwarding one chunk. -/
structure ForwardResult where
  consecutive : Nat
  attemptsMade : Nat
  delays : List Q
deriving DecidableEq, Repr

/-- The unrolled 3-attempt retry loop for one chunk: success resets the
consecutive-timeout counter; a non-timeout error breaks out with the
counter unchanged; a third timeout increments it.  `attempts` gives the
oracle outcome of each attempt. -/
def sendWithRetries (attempts : Nat → SendAttempt) (consecutive : Nat) :
    ForwardResult :=
  match attempts 0 with
  | SendAttempt.succeeded => ⟨0, 1, []⟩
  | SendAttempt.failedOther => ⟨consecutive, 1, []⟩
  | SendAttempt.timedOut =>
    match attempts 1 with
    | SendAttempt.succeeded => ⟨0, 2, [qMk 1 10]⟩
    | SendAttempt.failedOther => ⟨consecutive, 2, [qMk 1 10]⟩
    | SendAttempt.timedOut =>
      match attempts 2 with
      | SendAttempt.succeeded => ⟨0, 3, [qMk 1 10, qMk 2 10]⟩
      | SendAttempt.failedOther => ⟨consecutive, 3, [qMk 1 10, qMk 2 10]⟩
      | SendAttempt.timedOut => ⟨consecutive + 1, 3, [qMk 1 10, qMk 2 10]⟩

/-- State of the converter while-loop. -/
structure LoopState where
  consecutive : Nat
  chunksAttempted : Nat
  chunksSkipped : Nat
deriving DecidableEq, Repr

/-- Embeds the chunk-processing of `_ffmpeg_to_deepgram_loop`
(deepgram_service.py): each decoded chunk is forwarded (with retries)
when the connection is up, or skipped when it is not; in both cases the
while loop continues with the next chunk — the consecutive-failure cap
only breaks the inner retry loop. -/
def converterLoop (connected : Bool) :
    List (Nat → SendAttempt) → LoopState → LoopState
  | [], st => st
  | ch :: rest, st =>
    if connected then
      let r := sendWithRetries ch st.consecutive
      converterLoop connected rest
        ⟨r.consecutive, st.chunksAttempted + 1, st.chunksSkipped⟩
    else
      converterLoop connected rest
        ⟨st.consecutive, st.chunksAttempted, st.chunksSkipped + 1⟩

/-- Every attempt of a chunk times out. -/
def allTimeouts : Nat → SendAttempt := fun _ => SendAttempt.timedOut

/-- C5 (code evaluated at the failing input): each chunk is retried at
most 3 times with the exponential backoff delays 0.1 s and 0.2 s — that
part of the claim holds — but after 5 consecutive fully-failed forwards
the loop does NOT stop: on six all-timeout chunks it attempts all six,
driving the counter to 6, past the documented cap of 5, with no
unhealthy marking and no coordinator notification (no such mechanism
exists in the loop). -/
theorem c5_converter_loop_never_stops :
    converterLoop true (List.replicate 6 allTimeouts) ⟨0, 0, 0⟩ =
        ⟨6, 6, 0⟩ ∧
      (sendWithRetries allTimeouts 4).attemptsMade = 3 ∧
      (sendWithRetries allTimeouts 4).delays = [qMk 1 10, qMk 2 10] ∧
      (sendWithRetries allTimeouts 4).consecutive = 5 := by
  refine ⟨?_, ?_, ?_, ?_⟩
  · decide
  · decide
  · decide
  · decide

/-! ## deepgram_service.py: idempotent teardown (C9)

`disconnect()` cancels the listening task (awaiting the cancelled task,
with `CancelledError` caught), runs `_cleanup_ffmpeg()` (whose process
kill is wrapped in try/except that still clears the handle), and closes
the Deepgram connection inside try/except.  External misbehavior
(terminate or close raising) is an oracle; every such exception is
caught, so the embedded teardown is a total function and the error count
records how many except-branches ran. -/

/-- Mutable state of `DeepgramStreamingService` relevant to teardown. -/
structure BridgeState where
  ffmpegAlive : Option Bool
  converterThread : Option Bool
  stderrThread : Option Bool
  connection : Option Unit
  listeningDone : Option Bool
  is_connected : Bool
  stop_converter : Bool
deriving DecidableEq, Repr

/-- External failure behavior during teardown. -/
structure TeardownOracle where
  terminateRaises : Bool
  closeRaises : Bool
deriving DecidableEq, Repr

/-- The constructor state: nothing launched yet. -/
def freshBridgeState : BridgeState := ⟨none, none, none, none, none, false, false⟩

/-- Embeds `_cleanup_ffmpeg` (deepgram_service.py): set the stop flag,
kill the decoder if a handle exists (the except branch also clears the
handle), join and drop both worker threads.  Returns the state and the
number of error branches taken. -/
def cleanup_ffmpeg (o : TeardownOracle) (s : BridgeState) : BridgeState × Nat :=
  let s1 := { s with stop_converter := true }
  let step :=
    match s1.ffmpegAlive with
    | none => (s1, 0)
    | some _ =>
      if o.terminateRaises then ({ s1 with ffmpegAlive := none }, 1)
      else ({ s1 with ffmpegAlive := none }, 0)
  ({ step.1 with converterThread := none, stderrThread := none }, step.2)

/-- Embeds `disconnect` (deepgram_service.py): cancel the listening task
if it is still running (awaiting it; `CancelledError` is caught), clean
up the decoder, close the connection inside try/except (on success the
handle is cleared and `is_connected` reset; the except branch leaves
them).  Total: no path re-raises. -/
def deepgram_disconnect (o : TeardownOracle) (s : BridgeState) :
    BridgeState × Nat :=
  let s1 :=
    match s.listeningDone with
    | some false => { s with listeningDone := some true }
    | _ => s
  let step := cleanup_ffmpeg o s1
  match step.1.connection with
  | none => step
  | some _ =>
    if o.closeRaises then (step.1, step.2 + 1)
    else ({ step.1 with connection := none, is_connected := false }, step.2)

/-- No decoder process, no worker thread, no running listening task. -/
def bridgeQuiescent (s : BridgeState) : Prop :=
  s.ffmpegAlive = none ∧ s.converterThread = none ∧ s.stderrThread = none ∧
    s.listeningDone ≠ some false

/-- C9: teardown before the bridge was ever started takes no error
branch and leaves nothing running; and teardown immediately after a
teardown (whose external close succeeded — otherwise the first call
already reported the failure) likewise takes no error branch and leaves
no decoder process or worker thread, for every prior state and oracle.
The embedded `deepgram_disconnect` is a total function: every exception
of the source is caught in a branch that the error count records, so no
call raises. -/
theorem c9_idempotent_teardown (o o2 : TeardownOracle) (s : BridgeState)
    (hclose : o.closeRaises = false) :
    (deepgram_disconnect o2 freshBridgeState).2 = 0 ∧
      bridgeQuiescent (deepgram_disconnect o2 freshBridgeState).1 ∧
      (deepgram_disconnect o2 (deepgram_disconnect o s).1).2 = 0 ∧
      bridgeQuiescent (deepgram_disconnect o2 (deepgram_disconnect o s).1).1 := by
  have hfresh : deepgram_disconnect o2 freshBridgeState =
      ({ freshBridgeState with stop_converter := true }, 0) := rfl
  have hfirst : (deepgram_disconnect o s).1.ffmpegAlive = none ∧
      (deepgram_disconnect o s).1.converterThread = none ∧
      (deepgram_disconnect o s).1.stderrThread = none ∧
      (deepgram_disconnect o s).1.connection = none ∧
      (deepgram_disconnect o s).1.listeningDone ≠ some false := by
    unfold deepgram_disconnect cleanup_ffmpeg
    rcases s with ⟨ff, ct, st, conn, ld, ic, sc⟩
    rcases ff with _ | fa <;> rcases conn with _ | cu <;>
      rcases ld with _ | ldb <;> try rcases ldb with _ | _
    all_goals
      simp [hclose]
    all_goals
      rcases o with ⟨tr, cr⟩
      rcases tr with _ | _ <;> simp_all
  have hsecond : ∀ t : BridgeState,
      t.ffmpegAlive = none → t.converterThread = none → t.stderrThread = none →
      t.connection = none → t.listeningDone ≠ some false →
      (deepgram_disconnect o2 t).2 = 0 ∧ bridgeQuiescent (deepgram_disconnect o2 t).1 := by
    intro t hff hct hst hconn hld
    rcases t with ⟨ff, ct, st, conn, ld, ic, sc⟩
    simp only at hff hct hst hconn hld
    subst hff hct hst hconn
    unfold deepgram_disconnect cleanup_ffmpeg
    rcases ld with _ | ldb
    · simp [bridgeQuiescent]
    · rcases ldb with _ | _
      · exact absurd rfl hld
      · simp [bridgeQuiescent]
  obtain ⟨h1, h2, h3, h4, h5⟩ := hfirst
  have hs := hsecond _ h1 h2 h3 h4 h5
  refine ⟨by rw [hfresh], by rw [hfresh]; exact ⟨rfl, rfl, rfl, by simp [freshBridgeState]⟩,
    hs.1, hs.2⟩

/-- C9 (witness): the teardown theorem applied to a started-looking
state with a well-behaved oracle. -/
theorem c9_witness :
    (deepgram_disconnect ⟨false, false⟩
        (deepgram_disconnect ⟨false, false⟩
          ⟨some true, some true, some true, some (), some false, true, false⟩).1).2 = 0 := by
  have h := c9_idempotent_teardown ⟨false, false⟩ ⟨false, false⟩
    ⟨some true, some true, some true, some (), some false, true, false⟩ (by decide)
  exact h.2.2.1

/-! ## claude.py: detect_question_fast (stage-1 detector)

The per-type regex pattern families (`COMPILED_PATTERNS`) are embedded as
an arbitrary function `patternMatch : String → Option String` returning
the first question type whose pattern family matches the lower-cased
text, or `none`.  Every property claimed of the detector holds for every
such function, so nothing about the concrete regexes is assumed. -/

/-- The leading interrogative words of `detect_question_fast`
(websocket-independent, claude.py step 1). -/
def questionStartWords : List String :=
  ["what", "how", "why", "when", "where", "who", "which",
   "can you", "could you", "would you", "will you",
   "do you", "did you", "have you", "tell me", "describe"]

/-- Result dict of `detect_question_fast`. -/
structure Detection where
  is_question : Bool
  question : String
  question_type : String
  confidence : String
deriving DecidableEq, Repr

/-- Embeds `detect_question_fast` (claude.py), parameterized by the
compiled-pattern search `patternMatch`.  Mirrors the source: the
short-text early return, the question-mark test on the raw text, the
leading-word test on the lower-cased stripped text, the pattern search,
and the four-way confidence assignment. -/
def detect_question_fast (patternMatch : String → Option String)
    (text : String) : Detection :=
  if text = "" ∨ (pyStrip text).length < 5 then
    ⟨false, "", "none", "high"⟩
  else
    let text_clean := pyStrip text
    let text_lower := pyLower text_clean
    let has_question_mark := strContains text "?"
    let starts_with_question_word :=
      questionStartWords.any (fun w => startsWithStr text_lower w)
    let matched_type := patternMatch text_lower
    let is_question :=
      has_question_mark || starts_with_question_word || matched_type.isSome
    let confidence :=
      if has_question_mark && matched_type.isSome then "high"
      else if matched_type.isSome then "high"
      else if has_question_mark then "medium"
      else if starts_with_question_word then "medium"
      else "low"
    ⟨is_question,
     if is_question then text_clean else "",
     if is_question then matched_type.getD "general" else "none",
     confidence⟩

/-- The stage-2 guard of `websocket_transcribe.on_transcript`
(websocket.py line 352): the external classification call fires only when
stage 1 reported low confidence on something it still called a question. -/
def stage2Guard (d : Detection) : Bool :=
  d.confidence = "low" && d.is_question

/-- C10: the stage-1 fast detector returns confidence "low" only when
`is_question` is false, for every pattern family: "low" is assigned
exactly when there is no question mark, no leading interrogative word and
no pattern match, and those same three signals are what `is_question`
disjoins.  Consequently the stage-2 external classification branch,
guarded by low confidence together with `is_question`, is unreachable on
any stage-1 output. -/
theorem c10_stage2_branch_unreachable
    (patternMatch : String → Option String) (text : String) :
    stage2Guard (detect_question_fast patternMatch text) = false := by
  unfold detect_question_fast stage2Guard
  by_cases h0 : text = "" ∨ (pyStrip text).length < 5
  · rw [if_pos h0]
    decide
  · rw [if_neg h0]
    simp only
    by_cases hqm : strContains text "?" = true
    · by_cases hpm : (patternMatch (pyLower (pyStrip text))).isSome = true
      · simp [hqm, hpm]
      · simp [hqm, hpm]
    · by_cases hpm : (patternMatch (pyLower (pyStrip text))).isSome = true
      · simp [hpm]
      · by_cases hsw :
          (questionStartWords.any
            (fun w => startsWithStr (pyLower (pyStrip text)) w)) = true
        · simp [hqm, hpm, hsw]
        · simp [hqm, hpm, hsw]

end InterviewMate
